import Mathlib

/-!
Shallow embedding of the Todo domain service of `llm-todo-app`
(`app/service/todo_service.go` over the data model in `db/model`,
with the relational store modelled as an in-memory list of rows).

Machine conventions of the embedding:
* the GORM store is a list of rows plus an auto-increment counter;
* `First(&todo, id)` is the first row matching the id whose soft-delete
  marker is unset;
* timestamps are naturals supplied explicitly to each mutating operation
  (the store layer sets `CreatedAt`/`UpdatedAt` on insert and on save,
  and `DeletedAt` on soft delete);
* SQL `ORDER BY col DESC` over a text column compares strings
  byte-lexicographically, embedded below as `strLtB`;
* Go errors are an explicit error type: validation, not-found,
  already-deleted (store connectivity failures are out of model).
-/

namespace TodoApp

/-- `model.Priority` is a string type in the source. -/
abbrev Priority := String

/-- `Priority.IsValid` from `db/model`: membership in the fixed enumeration. -/
def Priority.IsValid (p : Priority) : Bool :=
  p == "low" || p == "medium" || p == "high" || p == "urgent"

/-- The persisted `model.Todo` entity. -/
structure Todo where
  id : Nat
  title : String
  description : String
  completed : Bool
  priority : Priority
  dueDate : Option Nat
  createdAt : Nat
  updatedAt : Nat
  deletedAt : Option Nat
deriving Repr, DecidableEq

/-- `model.TodoCreateRequest`. -/
structure TodoCreateRequest where
  title : String
  description : String
  priority : Priority
  dueDate : Option Nat
deriving Repr, DecidableEq

/-- `model.TodoUpdateRequest`: every field optional (pointer in Go). -/
structure TodoUpdateRequest where
  title : Option String
  description : Option String
  completed : Option Bool
  priority : Option Priority
  dueDate : Option Nat
deriving Repr, DecidableEq

/-- The error kinds the service distinguishes. -/
inductive ServiceError where
  | validationError (priority : String)
  | notFound (id : Nat)
  | alreadyDeleted (id : Nat)
deriving Repr, DecidableEq

/-- The relational store: rows plus the auto-increment id counter. -/
structure DB where
  rows : List Todo
  nextId : Nat
deriving Repr, DecidableEq

/-- A row is live when its soft-delete marker is unset. -/
def Todo.isLive (t : Todo) : Bool :=
  t.deletedAt.isNone

/-- GORM `First(&todo, id)`: the first row matching `id` that is not
soft-deleted (the default scope excludes rows with `deleted_at` set). -/
def firstLive (rows : List Todo) (id : Nat) : Option Todo :=
  rows.find? (fun t => t.id == id && t.isLive)

/-- `GetTodoByID`: fetch by id, not-found error when no live row matches. -/
def GetTodoByID (db : DB) (id : Nat) : Except ServiceError Todo :=
  match firstLive db.rows id with
  | some t => .ok t
  | none => .error (.notFound id)

/-- `CreateTodo`: validates a non-empty priority, defaults an empty one to
"medium" by mutating the caller's request struct in place (the middle
component of the result is the request's post-call state), then inserts a
new incomplete row. -/
def CreateTodo (db : DB) (time : Nat) (req : TodoCreateRequest) :
    DB × TodoCreateRequest × Except ServiceError Todo :=
  if req.priority ≠ "" ∧ Priority.IsValid req.priority = false then
    (db, req, .error (.validationError req.priority))
  else
    let req1 := if req.priority = "" then { req with priority := "medium" } else req
    let todo : Todo :=
      { id := db.nextId, title := req1.title, description := req1.description,
        completed := false, priority := req1.priority, dueDate := req1.dueDate,
        createdAt := time, updatedAt := time, deletedAt := none }
    ({ rows := db.rows ++ [todo], nextId := db.nextId + 1 }, req1, .ok todo)

/-- The UPDATE row set: replace every live row matching the id. -/
def saveRows (rows : List Todo) (id : Nat) (t : Todo) : List Todo :=
  rows.map (fun r => if r.id == id && r.isLive then t else r)

/-- GORM `Save`: full-row update of the live rows matching the primary key,
refreshing the updated-at timestamp (the soft-delete scope also guards
updates). Returns the saved entity. -/
def saveTodo (db : DB) (time : Nat) (id : Nat) (t : Todo) :
    DB × Except ServiceError Todo :=
  let t1 := { t with updatedAt := time }
  ({ db with rows := saveRows db.rows id t1 }, .ok t1)

/-- `UpdateTodo`: fetch the live row, apply exactly the present fields
(title, description, completed, then priority after re-validation, then
due date), and save the merged row. -/
def UpdateTodo (db : DB) (time : Nat) (id : Nat) (req : TodoUpdateRequest) :
    DB × Except ServiceError Todo :=
  match GetTodoByID db id with
  | .error e => (db, .error e)
  | .ok todo0 =>
    let t1 := match req.title with
      | some v => { todo0 with title := v }
      | none => todo0
    let t2 := match req.description with
      | some v => { t1 with description := v }
      | none => t1
    let t3 := match req.completed with
      | some v => { t2 with completed := v }
      | none => t2
    let withPriority : Except ServiceError Todo :=
      match req.priority with
      | some p =>
        if Priority.IsValid p = false then .error (.validationError p)
        else .ok { t3 with priority := p }
      | none => .ok t3
    match withPriority with
    | .error e => (db, .error e)
    | .ok t4 =>
      let t5 := match req.dueDate with
        | some v => { t4 with dueDate := some v }
        | none => t4
      saveTodo db time id t5

/-- `DeleteTodo`: fetch the live row (not-found error otherwise), then GORM
`Delete` soft-deletes every live row matching the id; a zero rows-affected
count yields the already-deleted error. -/
def DeleteTodo (db : DB) (time : Nat) (id : Nat) : DB × Option ServiceError :=
  match GetTodoByID db id with
  | .error e => (db, some e)
  | .ok _ =>
    let affected := (db.rows.filter (fun r => r.id == id && r.isLive)).length
    let rows1 := db.rows.map
      (fun r => if r.id == id && r.isLive then { r with deletedAt := some time } else r)
    if affected == 0 then ({ db with rows := rows1 }, some (.alreadyDeleted id))
    else ({ db with rows := rows1 }, none)

/-- Byte-lexicographic strict order on character lists, as a SQL text
column compares under a binary collation. -/
def lexLtB : List Char → List Char → Bool
  | [], [] => false
  | [], _ :: _ => true
  | _ :: _, [] => false
  | a :: as, b :: bs =>
    if a < b then true
    else if a = b then lexLtB as bs
    else false

/-- Strict lexicographic order on strings. -/
def strLtB (a b : String) : Bool :=
  lexLtB a.data b.data

/-- SQL `ORDER BY created_at DESC`: row `a` may precede row `b`. -/
def createdDesc (a b : Todo) : Prop :=
  b.createdAt ≤ a.createdAt

/-- SQL `ORDER BY updated_at DESC`. -/
def updatedDesc (a b : Todo) : Prop :=
  b.updatedAt ≤ a.updatedAt

/-- SQL `ORDER BY priority DESC, created_at DESC` on the text column. -/
def priorityCreatedDesc (a b : Todo) : Prop :=
  strLtB b.priority a.priority = true ∨
    (a.priority = b.priority ∧ b.createdAt ≤ a.createdAt)

instance : DecidableRel createdDesc := fun a b => by
  unfold createdDesc; infer_instance

instance : DecidableRel updatedDesc := fun a b => by
  unfold updatedDesc; infer_instance

instance : DecidableRel priorityCreatedDesc := fun a b => by
  unfold priorityCreatedDesc; infer_instance

/-- `GetAllTodos`: all live rows, newest created first. -/
def GetAllTodos (db : DB) : List Todo :=
  List.insertionSort createdDesc (db.rows.filter (fun t => t.isLive))

/-- `GetTodosByPriority`: validates the priority, then the live rows with
that priority, newest created first. -/
def GetTodosByPriority (db : DB) (priority : Priority) :
    Except ServiceError (List Todo) :=
  if Priority.IsValid priority = false then .error (.validationError priority)
  else .ok (List.insertionSort createdDesc
    (db.rows.filter (fun t => t.isLive && t.priority == priority)))

/-- `GetCompletedTodos`: live completed rows, most recently updated first. -/
def GetCompletedTodos (db : DB) : List Todo :=
  List.insertionSort updatedDesc (db.rows.filter (fun t => t.isLive && t.completed))

/-- `GetPendingTodos`: live incomplete rows, ordered by the stored priority
text descending, then creation time descending. -/
def GetPendingTodos (db : DB) : List Todo :=
  List.insertionSort priorityCreatedDesc
    (db.rows.filter (fun t => t.isLive && !t.completed))

/-- Modelled from the spec: the severity rank of the declared enumeration
(low, medium, high, urgent in increasing severity), used to state the
spec-side ordering of `ListPending`. -/
def specSeverityRank : String → Nat
  | "low" => 0
  | "medium" => 1
  | "high" => 2
  | "urgent" => 3
  | _ => 0

/-- Modelled from the spec: ordering by severity rank descending with ties
broken by most-recently-created first, as the spec states for ListPending. -/
def specSeverityCreatedDesc (a b : Todo) : Prop :=
  specSeverityRank b.priority < specSeverityRank a.priority ∨
    (specSeverityRank a.priority = specSeverityRank b.priority ∧
      b.createdAt ≤ a.createdAt)

instance : DecidableRel specSeverityCreatedDesc := fun a b => by
  unfold specSeverityCreatedDesc; infer_instance

/-- The merge of a partial update into an existing entity, with the saved
updated-at timestamp; the explicit form of what `UpdateTodo` persists. -/
def mergeTodo (t0 : Todo) (req : TodoUpdateRequest) (time : Nat) : Todo :=
  { t0 with
    title := req.title.getD t0.title,
    description := req.description.getD t0.description,
    completed := req.completed.getD t0.completed,
    priority := req.priority.getD t0.priority,
    dueDate := req.dueDate.or t0.dueDate,
    updatedAt := time }

/-- The row Create inserts for a post-default request: an incomplete entity
with the next id and the insert-time timestamps. -/
def createdRow (db : DB) (time : Nat) (req1 : TodoCreateRequest) : Todo :=
  { id := db.nextId, title := req1.title, description := req1.description,
    completed := false, priority := req1.priority, dueDate := req1.dueDate,
    createdAt := time, updatedAt := time, deletedAt := none }

/-- The all-absent update request. -/
def emptyUpdate : TodoUpdateRequest :=
  { title := none, description := none, completed := none,
    priority := none, dueDate := none }

/-- Fixture: a live high-priority entity. -/
def t0W : Todo :=
  { id := 1, title := "Buy milk", description := "", completed := false,
    priority := "high", dueDate := none, createdAt := 10, updatedAt := 10,
    deletedAt := none }

/-- Fixture: a store with a single live row. -/
def dbW : DB := { rows := [t0W], nextId := 2 }

/-- Fixture: a pending high-priority entity created later than `tMed`. -/
def tHigh : Todo :=
  { id := 1, title := "a", description := "", completed := false,
    priority := "high", dueDate := none, createdAt := 2, updatedAt := 2,
    deletedAt := none }

/-- Fixture: a pending medium-priority entity created earlier than `tHigh`. -/
def tMed : Todo :=
  { id := 2, title := "b", description := "", completed := false,
    priority := "medium", dueDate := none, createdAt := 1, updatedAt := 1,
    deletedAt := none }

/-- Fixture: a store with two pending rows of different priorities. -/
def db5 : DB := { rows := [tHigh, tMed], nextId := 3 }

/-- Fixture: a create request with the priority field omitted. -/
def reqW : TodoCreateRequest :=
  { title := "Walk dog", description := "", priority := "", dueDate := none }

/-- Fixture: an update request supplying several fields. -/
def reqU3 : TodoUpdateRequest :=
  { title := some "New title", description := none, completed := some true,
    priority := some "low", dueDate := some 42 }

theorem lexLtB_trans :
    ∀ (x y z : List Char), lexLtB x y = true → lexLtB y z = true →
      lexLtB x z = true := by
  intro x
  induction x with
  | nil =>
    intro y z hxy hyz
    cases y with
    | nil => simp [lexLtB] at hxy
    | cons b bs =>
      cases z with
      | nil => simp [lexLtB] at hyz
      | cons c cs => simp [lexLtB]
  | cons a as ih =>
    intro y z hxy hyz
    cases y with
    | nil => simp [lexLtB] at hxy
    | cons b bs =>
      cases z with
      | nil => simp [lexLtB] at hyz
      | cons c cs =>
        simp only [lexLtB] at hxy hyz ⊢
        rcases lt_trichotomy a b with hab | hab | hab
        · rcases lt_trichotomy b c with hbc | hbc | hbc
          · simp [lt_trans hab hbc]
          · subst hbc
            simp [hab]
          · rw [if_neg (asymm hbc), if_neg (ne_of_gt hbc)] at hyz
            simp at hyz
        · subst hab
          rcases lt_trichotomy a c with hac | hac | hac
          · simp [hac]
          · subst hac
            rw [if_neg (lt_irrefl a), if_pos rfl] at hxy hyz ⊢
            exact ih bs cs hxy hyz
          · rw [if_neg (asymm hac), if_neg (ne_of_gt hac)] at hyz
            simp at hyz
        · rw [if_neg (asymm hab), if_neg (ne_of_gt hab)] at hxy
          simp at hxy

theorem lexLtB_total_of_ne :
    ∀ (x y : List Char), x ≠ y → lexLtB x y = true ∨ lexLtB y x = true := by
  intro x
  induction x with
  | nil =>
    intro y hne
    cases y with
    | nil => exact absurd rfl hne
    | cons b bs => left; simp [lexLtB]
  | cons a as ih =>
    intro y hne
    cases y with
    | nil => right; simp [lexLtB]
    | cons b bs =>
      rcases lt_trichotomy a b with h | h | h
      · left; simp [lexLtB, h]
      · subst h
        have hne2 : as ≠ bs := by
          intro hh
          exact hne (by rw [hh])
        rcases ih bs hne2 with h2 | h2
        · left; simp [lexLtB, h2]
        · right; simp [lexLtB, h2]
      · right; simp [lexLtB, h, asymm h, ne_of_gt h]

theorem strLtB_trans {x y z : String} (h1 : strLtB x y = true)
    (h2 : strLtB y z = true) : strLtB x z = true :=
  lexLtB_trans x.data y.data z.data h1 h2

theorem strLtB_total_of_ne {s t : String} (h : s ≠ t) :
    strLtB s t = true ∨ strLtB t s = true := by
  refine lexLtB_total_of_ne s.data t.data (fun hd => h ?_)
  cases s
  cases t
  cases hd
  rfl

instance : IsTotal Todo createdDesc :=
  ⟨fun a b => Nat.le_total b.createdAt a.createdAt⟩

instance : IsTrans Todo createdDesc :=
  ⟨fun _ _ _ h1 h2 => le_trans h2 h1⟩

instance : IsTotal Todo updatedDesc :=
  ⟨fun a b => Nat.le_total b.updatedAt a.updatedAt⟩

instance : IsTrans Todo updatedDesc :=
  ⟨fun _ _ _ h1 h2 => le_trans h2 h1⟩

instance : IsTotal Todo priorityCreatedDesc := by
  refine ⟨fun a b => ?_⟩
  unfold priorityCreatedDesc
  by_cases h : a.priority = b.priority
  · rcases Nat.le_total b.createdAt a.createdAt with h1 | h1
    · exact Or.inl (Or.inr ⟨h, h1⟩)
    · exact Or.inr (Or.inr ⟨h.symm, h1⟩)
  · rcases strLtB_total_of_ne h with h1 | h1
    · exact Or.inr (Or.inl h1)
    · exact Or.inl (Or.inl h1)

instance : IsTrans Todo priorityCreatedDesc := by
  refine ⟨fun a b c h1 h2 => ?_⟩
  unfold priorityCreatedDesc at h1 h2 ⊢
  rcases h1 with h1 | ⟨h1e, h1c⟩
  · rcases h2 with h2 | ⟨h2e, h2c⟩
    · exact Or.inl (strLtB_trans h2 h1)
    · exact Or.inl (h2e ▸ h1)
  · rcases h2 with h2 | ⟨h2e, h2c⟩
    · exact Or.inl (by rw [h1e]; exact h2)
    · exact Or.inr ⟨h1e.trans h2e, le_trans h2c h1c⟩

theorem find?_map_comm {α : Type} (f : α → α) (p : α → Bool)
    (h : ∀ a, p (f a) = p a) :
    ∀ (l : List α), (l.map f).find? p = (l.find? p).map f := by
  intro l
  induction l with
  | nil => rfl
  | cons a l ih =>
    by_cases hp : p a = true
    · rw [List.map_cons, List.find?_cons_of_pos _ (by rw [h a]; exact hp),
        List.find?_cons_of_pos _ hp]
      rfl
    · rw [List.map_cons,
        List.find?_cons_of_neg _ (by rw [h a]; simpa using hp),
        List.find?_cons_of_neg _ (by simpa using hp), ih]

theorem filter_append_filter_not {α : Type} (p q : α → Bool) :
    ∀ (l : List α),
      ((l.filter fun a => p a && !q a) ++ (l.filter fun a => p a && q a)).Perm
        (l.filter p) := by
  intro l
  induction l with
  | nil => simp
  | cons x xs ih =>
    by_cases hp : p x = true
    · by_cases hq : q x = true
      · simp only [List.filter_cons, hp, hq, Bool.not_true, Bool.and_false,
          Bool.and_true, if_false, if_true]
        exact List.perm_middle.trans (ih.cons x)
      · simp only [List.filter_cons, hp, Bool.not_eq_true] at hq
        simp only [List.filter_cons, hp, hq, Bool.not_false, Bool.and_true,
          Bool.and_false, if_true, if_false, List.cons_append]
        exact ih.cons x
    · simp only [Bool.not_eq_true] at hp
      simp only [List.filter_cons, hp, Bool.false_and, if_false]
      exact ih

theorem firstLive_props {rows : List Todo} {id : Nat} {t0 : Todo}
    (h : firstLive rows id = some t0) :
    t0 ∈ rows ∧ t0.id = id ∧ t0.deletedAt = none := by
  have hmem := List.mem_of_find?_eq_some h
  have hp := List.find?_some h
  simp only [Bool.and_eq_true, beq_iff_eq, Todo.isLive,
    Option.isNone_iff_eq_none] at hp
  exact ⟨hmem, hp.1, hp.2⟩

theorem updateTodo_ok (db : DB) (time id : Nat) (req : TodoUpdateRequest)
    (t0 : Todo) (hlive : firstLive db.rows id = some t0)
    (hp : ∀ p, req.priority = some p → Priority.IsValid p = true) :
    UpdateTodo db time id req =
      ({ db with rows := saveRows db.rows id (mergeTodo t0 req time) },
       .ok (mergeTodo t0 req time)) := by
  rcases hq : req.priority with _ | pv
  · rcases ht : req.title with _ | tv <;>
      rcases hd : req.description with _ | dv <;>
      rcases hc : req.completed with _ | cv <;>
      rcases hu : req.dueDate with _ | uv <;>
      simp [UpdateTodo, GetTodoByID, hlive, saveTodo, mergeTodo,
        ht, hd, hc, hq, hu, Option.getD, Option.or]
  · have hv := hp pv hq
    rcases ht : req.title with _ | tv <;>
      rcases hd : req.description with _ | dv <;>
      rcases hc : req.completed with _ | cv <;>
      rcases hu : req.dueDate with _ | uv <;>
      simp [UpdateTodo, GetTodoByID, hlive, saveTodo, mergeTodo,
        ht, hd, hc, hq, hu, hv, Option.getD, Option.or]

theorem firstLive_saveRows {rows : List Todo} {id : Nat} {t0 t : Todo}
    (h : firstLive rows id = some t0) (hid : t.id = id)
    (hl : t.deletedAt = none) :
    firstLive (saveRows rows id t) id = some t := by
  unfold firstLive at h
  unfold firstLive saveRows
  rw [find?_map_comm _ _ ?hcomm, h]
  · have hc := List.find?_some h
    have hcP : t0.id = id ∧ t0.deletedAt = none := by
      simpa [Todo.isLive, Option.isNone_iff_eq_none] using hc
    simp [Todo.isLive, hcP.1, hcP.2]
  case hcomm =>
    intro r
    by_cases hc : r.id = id ∧ r.deletedAt = none
    · simp [Todo.isLive, hc.1, hc.2, hid, hl]
    · simp [Todo.isLive, Option.isNone_iff_eq_none, hc]

theorem saveRows_saveRows {rows : List Todo} {id : Nat} {t s : Todo}
    (hid : t.id = id) (hl : t.deletedAt = none) :
    saveRows (saveRows rows id t) id s = saveRows rows id s := by
  unfold saveRows
  rw [List.map_map]
  apply List.map_congr_left
  intro r hr
  by_cases hc : r.id = id ∧ r.deletedAt = none
  · simp [Function.comp, Todo.isLive, hc.1, hc.2, hid, hl]
  · simp [Function.comp, Todo.isLive, Option.isNone_iff_eq_none, hc]

/-- C1: every member of the priority enumeration is accepted by Create and
by Update (on a live entity), while every other non-empty priority makes
both return a ValidationError naming the bad value and leave the store
unchanged. -/
theorem create_update_priority_validation (db : DB) (time id : Nat)
    (req : TodoCreateRequest) (ureq : TodoUpdateRequest) (p : String)
    (t0 : Todo) (hlive : firstLive db.rows id = some t0) :
    (Priority.IsValid p = true →
      (∃ t, (CreateTodo db time { req with priority := p }).2.2 = .ok t)
      ∧ ∃ t, (UpdateTodo db time id { ureq with priority := some p }).2 = .ok t)
    ∧ (p ≠ "" → Priority.IsValid p = false →
      (CreateTodo db time { req with priority := p }).2.2
          = .error (.validationError p)
      ∧ (CreateTodo db time { req with priority := p }).1 = db
      ∧ (UpdateTodo db time id { ureq with priority := some p }).2
          = .error (.validationError p)
      ∧ (UpdateTodo db time id { ureq with priority := some p }).1 = db) := by
  constructor
  · intro hv
    have hne : p ≠ "" := by
      intro he
      subst he
      simp [Priority.IsValid] at hv
    constructor
    · refine ⟨createdRow db time { req with priority := p }, ?_⟩
      simp [CreateTodo, createdRow, hv, hne]
    · have h := updateTodo_ok db time id { ureq with priority := some p } t0 hlive
        (fun q hq => (Option.some_inj.mp hq) ▸ hv)
      exact ⟨_, by rw [h]⟩
  · intro hne hb
    refine ⟨by simp [CreateTodo, hne, hb], by simp [CreateTodo, hne, hb],
      by simp [UpdateTodo, GetTodoByID, hlive, hb],
      by simp [UpdateTodo, GetTodoByID, hlive, hb]⟩

theorem create_update_priority_validation_witness :
    ((∃ t, (CreateTodo dbW 3 { reqW with priority := "high" }).2.2 = .ok t)
      ∧ ∃ t, (UpdateTodo dbW 3 1 { emptyUpdate with priority := some "high" }).2
          = .ok t)
    ∧ ((CreateTodo dbW 3 { reqW with priority := "bogus" }).2.2
        = .error (.validationError "bogus")
      ∧ (CreateTodo dbW 3 { reqW with priority := "bogus" }).1 = dbW
      ∧ (UpdateTodo dbW 3 1 { emptyUpdate with priority := some "bogus" }).2
        = .error (.validationError "bogus")
      ∧ (UpdateTodo dbW 3 1 { emptyUpdate with priority := some "bogus" }).1
        = dbW) :=
  ⟨(create_update_priority_validation dbW 3 1 reqW emptyUpdate "high" t0W
      rfl).1 rfl,
   (create_update_priority_validation dbW 3 1 reqW emptyUpdate "bogus" t0W
      rfl).2 (by decide) rfl⟩

/-- C2: Create with an empty priority persists and returns an entity with
priority "medium", and every entity Create returns has Completed set to
false. -/
theorem create_default_medium_and_incomplete (db : DB) (time : Nat)
    (req : TodoCreateRequest) :
    (req.priority = "" →
      ∃ t, (CreateTodo db time req).2.2 = .ok t ∧ t.priority = "medium"
        ∧ t ∈ (CreateTodo db time req).1.rows)
    ∧ (∀ t, (CreateTodo db time req).2.2 = .ok t → t.completed = false) := by
  constructor
  · intro he
    refine ⟨createdRow db time { req with priority := "medium" }, ?_, rfl, ?_⟩
    · simp [CreateTodo, createdRow, he]
    · simp [CreateTodo, createdRow, he]
  · intro t ht
    by_cases h1 : req.priority ≠ "" ∧ Priority.IsValid req.priority = false
    · have h2 : CreateTodo db time req
          = (db, req, .error (.validationError req.priority)) := by
        unfold CreateTodo
        rw [if_pos h1]
      rw [h2] at ht
      exact absurd ht (by simp)
    · have h2 : (CreateTodo db time req).2.2
          = .ok (createdRow db time
            (if req.priority = "" then { req with priority := "medium" }
             else req)) := by
        unfold CreateTodo
        rw [if_neg h1]
        rfl
      rw [h2] at ht
      have h3 := Except.ok.inj ht
      rw [← h3]
      rfl

theorem create_default_medium_and_incomplete_witness :
    (∃ t, (CreateTodo dbW 7 reqW).2.2 = .ok t ∧ t.priority = "medium"
      ∧ t ∈ (CreateTodo dbW 7 reqW).1.rows)
    ∧ (createdRow dbW 7 { reqW with priority := "medium" }).completed = false :=
  ⟨(create_default_medium_and_incomplete dbW 7 reqW).1 rfl,
   (create_default_medium_and_incomplete dbW 7 reqW).2
     (createdRow dbW 7 { reqW with priority := "medium" }) rfl⟩

/-- C10: Create overwrites the caller's request in place when the priority
field is empty, setting it to "medium" and leaving every other request
field unchanged; a request with a non-empty priority is not modified. -/
theorem create_mutates_request (db : DB) (time : Nat)
    (req : TodoCreateRequest) :
    (req.priority = "" →
      (CreateTodo db time req).2.1 = { req with priority := "medium" })
    ∧ (req.priority ≠ "" → (CreateTodo db time req).2.1 = req) := by
  constructor
  · intro he
    simp [CreateTodo, he]
  · intro hne
    by_cases hv : Priority.IsValid req.priority = false
    · simp [CreateTodo, hne, hv]
    · simp [CreateTodo, hne, hv]

/-- C3: on a live entity, Update applies exactly the present fields of the
request (priority assumed to re-validate) and keeps the previous value of
every absent field in the returned entity. -/
theorem update_applies_present_fields (db : DB) (time id : Nat)
    (req : TodoUpdateRequest) (t0 : Todo)
    (hlive : firstLive db.rows id = some t0)
    (hp : ∀ p, req.priority = some p → Priority.IsValid p = true) :
    ∃ u, (UpdateTodo db time id req).2 = .ok u
      ∧ u.id = t0.id
      ∧ u.title = req.title.getD t0.title
      ∧ u.description = req.description.getD t0.description
      ∧ u.completed = req.completed.getD t0.completed
      ∧ u.priority = req.priority.getD t0.priority
      ∧ u.dueDate = req.dueDate.or t0.dueDate
      ∧ u.createdAt = t0.createdAt := by
  have h := updateTodo_ok db time id req t0 hlive hp
  exact ⟨mergeTodo t0 req time, by rw [h], rfl, rfl, rfl, rfl, rfl, rfl, rfl⟩

theorem update_applies_present_fields_witness :
    ∃ u, (UpdateTodo dbW 9 1 reqU3).2 = .ok u
      ∧ u.id = t0W.id
      ∧ u.title = reqU3.title.getD t0W.title
      ∧ u.description = reqU3.description.getD t0W.description
      ∧ u.completed = reqU3.completed.getD t0W.completed
      ∧ u.priority = reqU3.priority.getD t0W.priority
      ∧ u.dueDate = reqU3.dueDate.or t0W.dueDate
      ∧ u.createdAt = t0W.createdAt :=
  update_applies_present_fields dbW 9 1 reqU3 t0W rfl
    (fun p hq => (Option.some_inj.mp hq) ▸ (by decide))

theorem deleteTodo_notFound {dbx : DB} {id : Nat} (t : Nat)
    (h : firstLive dbx.rows id = none) :
    DeleteTodo dbx t id = (dbx, some (.notFound id)) := by
  simp [DeleteTodo, GetTodoByID, h]

/-- C4: for a live entity, the first Delete succeeds and soft-deletes the
row in place; a second sequential Delete returns a NotFound error (the
already-deleted branch only fires on a fetch/delete race), changes no
state, and the row is still stored with its deleted-at marker set. -/
theorem delete_twice (db : DB) (t1 t2 id : Nat) (t0 : Todo)
    (hlive : firstLive db.rows id = some t0) :
    (DeleteTodo db t1 id).2 = none
    ∧ (DeleteTodo (DeleteTodo db t1 id).1 t2 id).2 = some (.notFound id)
    ∧ (DeleteTodo (DeleteTodo db t1 id).1 t2 id).1 = (DeleteTodo db t1 id).1
    ∧ { t0 with deletedAt := some t1 } ∈ (DeleteTodo db t1 id).1.rows
    ∧ (DeleteTodo db t1 id).1.rows.length = db.rows.length := by
  have hprops := firstLive_props hlive
  have hlive2 : List.find? (fun r : Todo => r.id == id && r.isLive) db.rows
      = some t0 := hlive
  have hcond1 := List.find?_some hlive2
  have hcond0 : (t0.id == id && t0.isLive) = true := hcond1
  have hmemf : t0 ∈ db.rows.filter (fun r => r.id == id && r.isLive) :=
    List.mem_filter.mpr ⟨hprops.1, hcond0⟩
  have hafl : (db.rows.filter (fun r => r.id == id && r.isLive)).length ≠ 0 :=
    Nat.pos_iff_ne_zero.mp
      (List.length_pos.mpr (List.ne_nil_of_mem hmemf))
  have haffB : ((db.rows.filter (fun r => r.id == id && r.isLive)).length == 0)
      = false := by
    simpa using hafl
  have hd1 : DeleteTodo db t1 id
      = ({ db with rows := db.rows.map (fun r =>
            if r.id == id && r.isLive then { r with deletedAt := some t1 }
            else r) }, none) := by
    simp [DeleteTodo, GetTodoByID, hlive, haffB]
  have hnone : firstLive (DeleteTodo db t1 id).1.rows id = none := by
    rw [hd1]
    refine List.find?_eq_none.mpr ?_
    intro x hx
    rcases List.mem_map.1 hx with ⟨r, hr, hfr⟩
    intro hcx
    by_cases hc : r.id = id ∧ r.deletedAt = none
    · rw [← hfr] at hcx
      simp [Todo.isLive, hc.1, hc.2] at hcx
    · rw [← hfr] at hcx
      simp [Todo.isLive, Option.isNone_iff_eq_none, hc] at hcx
  refine ⟨by rw [hd1], ?_, ?_, ?_, ?_⟩
  · rw [deleteTodo_notFound t2 hnone]
  · rw [deleteTodo_notFound t2 hnone]
  · rw [hd1]
    refine List.mem_map.mpr ⟨t0, hprops.1, ?_⟩
    simp [hcond0]
  · rw [hd1]
    exact List.length_map _ _

theorem delete_twice_witness :
    (DeleteTodo dbW 5 1).2 = none
    ∧ (DeleteTodo (DeleteTodo dbW 5 1).1 6 1).2 = some (.notFound 1)
    ∧ (DeleteTodo (DeleteTodo dbW 5 1).1 6 1).1 = (DeleteTodo dbW 5 1).1
    ∧ { t0W with deletedAt := some 5 } ∈ (DeleteTodo dbW 5 1).1.rows
    ∧ (DeleteTodo dbW 5 1).1.rows.length = dbW.rows.length :=
  delete_twice dbW 5 6 1 t0W rfl

theorem delete_twice_counterexample :
    (DeleteTodo (DeleteTodo dbW 5 1).1 6 1).2 = some (.notFound 1)
    ∧ (DeleteTodo (DeleteTodo dbW 5 1).1 6 1).2 ≠ some (.alreadyDeleted 1)
    ∧ (DeleteTodo (DeleteTodo dbW 5 1).1 6 1).2 ≠ none := by
  refine ⟨rfl, by decide, by decide⟩

theorem create_mutates_request_witness :
    (CreateTodo dbW 7 reqW).2.1 = { reqW with priority := "medium" }
    ∧ (CreateTodo dbW 7 { reqW with priority := "urgent" }).2.1
      = { reqW with priority := "urgent" } :=
  ⟨(create_mutates_request dbW 7 reqW).1 rfl,
   (create_mutates_request dbW 7 { reqW with priority := "urgent" }).2
     (by decide)⟩

/-- C5 (amended): ListPending returns the live incomplete entities ordered
by the stored priority strings in descending lexicographic order (urgent,
then medium, then low, then high), ties broken by most-recently-created
first — not by the severity rank the spec states. -/
theorem pending_lexical_order (db : DB) :
    (GetPendingTodos db).Perm
      (db.rows.filter (fun t => t.isLive && !t.completed))
    ∧ List.Sorted priorityCreatedDesc (GetPendingTodos db) :=
  ⟨List.perm_insertionSort _ _, List.sorted_insertionSort _ _⟩

theorem pending_severity_order_counterexample :
    GetPendingTodos db5 = [tMed, tHigh]
    ∧ specSeverityRank tMed.priority < specSeverityRank tHigh.priority
    ∧ ¬ List.Pairwise specSeverityCreatedDesc (GetPendingTodos db5) := by
  decide

/-- C6: GetByID returns exactly the first live row matching the id, a
NotFound error otherwise; a soft-deleted entity is never returned, and
Update and Delete on an id with no live row also report NotFound. -/
theorem getTodoByID_spec (db : DB) (id : Nat) :
    (∀ t, GetTodoByID db id = .ok t ↔ firstLive db.rows id = some t)
    ∧ (GetTodoByID db id = .error (.notFound id) ↔ firstLive db.rows id = none)
    ∧ (∀ t, GetTodoByID db id = .ok t → t.deletedAt = none)
    ∧ (firstLive db.rows id = none →
        ∀ time req, (UpdateTodo db time id req).2 = .error (.notFound id)
          ∧ (DeleteTodo db time id).2 = some (.notFound id)) := by
  refine ⟨?_, ?_, ?_, ?_⟩
  · intro t
    rcases hfl : firstLive db.rows id with _ | t2 <;>
      simp [GetTodoByID, hfl]
  · rcases hfl : firstLive db.rows id with _ | t2 <;>
      simp [GetTodoByID, hfl]
  · intro t ht
    rcases hfl : firstLive db.rows id with _ | t2
    · simp [GetTodoByID, hfl] at ht
    · simp [GetTodoByID, hfl] at ht
      exact ht ▸ (firstLive_props hfl).2.2
  · intro hnone time req
    exact ⟨by simp [UpdateTodo, GetTodoByID, hnone],
      by rw [deleteTodo_notFound time hnone]⟩

theorem getTodoByID_spec_witness :
    GetTodoByID dbW 1 = .ok t0W
    ∧ GetTodoByID dbW 2 = .error (.notFound 2)
    ∧ t0W.deletedAt = none
    ∧ ((UpdateTodo dbW 4 2 emptyUpdate).2 = .error (.notFound 2)
        ∧ (DeleteTodo dbW 4 2).2 = some (.notFound 2)) :=
  ⟨((getTodoByID_spec dbW 1).1 t0W).mpr rfl,
   ((getTodoByID_spec dbW 2).2.1).mpr rfl,
   (getTodoByID_spec dbW 1).2.2.1 t0W rfl,
   (getTodoByID_spec dbW 2).2.2.2 rfl 4 emptyUpdate⟩

/-- C7: ListByPriority on a valid member returns exactly the live entities
with that priority sorted by creation time descending, and ListAll returns
all live entities sorted by creation time descending. -/
theorem list_by_priority_and_all_spec (db : DB) (p : Priority) :
    (Priority.IsValid p = true →
      ∃ l, GetTodosByPriority db p = .ok l
        ∧ l.Perm (db.rows.filter (fun t => t.isLive && t.priority == p))
        ∧ List.Sorted createdDesc l)
    ∧ (GetAllTodos db).Perm (db.rows.filter (fun t => t.isLive))
    ∧ List.Sorted createdDesc (GetAllTodos db) := by
  refine ⟨?_, List.perm_insertionSort _ _, List.sorted_insertionSort _ _⟩
  intro hv
  refine ⟨List.insertionSort createdDesc
      (db.rows.filter (fun t => t.isLive && t.priority == p)), ?_,
    List.perm_insertionSort _ _, List.sorted_insertionSort _ _⟩
  simp [GetTodosByPriority, hv]

theorem list_by_priority_and_all_spec_witness :
    ∃ l, GetTodosByPriority db5 "high" = .ok l
      ∧ l.Perm (db5.rows.filter (fun t => t.isLive && t.priority == "high"))
      ∧ List.Sorted createdDesc l :=
  (list_by_priority_and_all_spec db5 "high").1 rfl

/-- C8: ListPending returns only incomplete entities, ListCompleted only
completed ones, and together they partition the live rows: every live row
is in exactly one of the two lists. -/
theorem pending_completed_partition (db : DB) :
    (∀ t ∈ GetPendingTodos db, t.completed = false)
    ∧ (∀ t ∈ GetCompletedTodos db, t.completed = true)
    ∧ (GetPendingTodos db ++ GetCompletedTodos db).Perm
        (db.rows.filter (fun t => t.isLive))
    ∧ (∀ t, t ∈ db.rows → t.isLive = true →
        (t ∈ GetPendingTodos db ∧ t ∉ GetCompletedTodos db)
        ∨ (t ∈ GetCompletedTodos db ∧ t ∉ GetPendingTodos db)) := by
  have hpend : (GetPendingTodos db).Perm
      (db.rows.filter (fun t => t.isLive && !t.completed)) :=
    List.perm_insertionSort _ _
  have hcomp : (GetCompletedTodos db).Perm
      (db.rows.filter (fun t => t.isLive && t.completed)) :=
    List.perm_insertionSort _ _
  have hmp : ∀ t, t ∈ GetPendingTodos db ↔
      (t ∈ db.rows ∧ (t.isLive && !t.completed) = true) := by
    intro t
    rw [hpend.mem_iff, List.mem_filter]
  have hmc : ∀ t, t ∈ GetCompletedTodos db ↔
      (t ∈ db.rows ∧ (t.isLive && t.completed) = true) := by
    intro t
    rw [hcomp.mem_iff, List.mem_filter]
  refine ⟨?_, ?_, ?_, ?_⟩
  · intro t ht
    have h3 := ((hmp t).1 ht).2
    simp at h3
    exact h3.2
  · intro t ht
    have h3 := ((hmc t).1 ht).2
    simp at h3
    exact h3.2
  · exact (hpend.append hcomp).trans
      (filter_append_filter_not Todo.isLive Todo.completed db.rows)
  · intro t hmem hliveT
    cases hcb : t.completed
    · left
      refine ⟨(hmp t).2 ⟨hmem, by simp [hliveT, hcb]⟩, ?_⟩
      intro hin
      have h2 := ((hmc t).1 hin).2
      simp [hliveT, hcb] at h2
    · right
      refine ⟨(hmc t).2 ⟨hmem, by simp [hliveT, hcb]⟩, ?_⟩
      intro hin
      have h2 := ((hmp t).1 hin).2
      simp [hliveT, hcb] at h2

theorem pending_completed_partition_witness :
    tHigh.completed = false
    ∧ ((tHigh ∈ GetPendingTodos db5 ∧ tHigh ∉ GetCompletedTodos db5)
        ∨ (tHigh ∈ GetCompletedTodos db5 ∧ tHigh ∉ GetPendingTodos db5)) :=
  ⟨(pending_completed_partition db5).1 tHigh (by decide),
   (pending_completed_partition db5).2.2.2 tHigh (by decide) (by decide)⟩

/-- C9 (amended): an all-absent update on a live entity saves the entity
unchanged except for the refreshed updated-at timestamp; applying it twice
leaves the same store state as applying it once at the later time, and the
priority is never changed. Full state equality of "twice" and "once" fails
because every save refreshes updated-at. -/
theorem update_empty_idempotent_up_to_timestamp (db : DB) (t1 t2 id : Nat)
    (t0 : Todo) (hlive : firstLive db.rows id = some t0) :
    (UpdateTodo db t1 id emptyUpdate).2 = .ok { t0 with updatedAt := t1 }
    ∧ (UpdateTodo (UpdateTodo db t1 id emptyUpdate).1 t2 id emptyUpdate).2
        = .ok { t0 with updatedAt := t2 }
    ∧ (UpdateTodo (UpdateTodo db t1 id emptyUpdate).1 t2 id emptyUpdate).1
        = (UpdateTodo db t2 id emptyUpdate).1
    ∧ (∀ u, (UpdateTodo db t1 id emptyUpdate).2 = .ok u →
        u.priority = t0.priority) := by
  have hprops := firstLive_props hlive
  have hnp : ∀ p, emptyUpdate.priority = some p →
      Priority.IsValid p = true := by
    intro p hq
    simp [emptyUpdate] at hq
  have h1 := updateTodo_ok db t1 id emptyUpdate t0 hlive hnp
  have hid1 : (mergeTodo t0 emptyUpdate t1).id = id := hprops.2.1
  have hdel1 : (mergeTodo t0 emptyUpdate t1).deletedAt = none := hprops.2.2
  have hlive1 : firstLive (UpdateTodo db t1 id emptyUpdate).1.rows id
      = some (mergeTodo t0 emptyUpdate t1) := by
    rw [h1]
    exact firstLive_saveRows hlive hid1 hdel1
  have h2 := updateTodo_ok (UpdateTodo db t1 id emptyUpdate).1 t2 id
      emptyUpdate (mergeTodo t0 emptyUpdate t1) hlive1 hnp
  have h3 := updateTodo_ok db t2 id emptyUpdate t0 hlive hnp
  refine ⟨by rw [h1]; rfl, by rw [h2]; rfl, ?_, ?_⟩
  · rw [h2, h3, h1]
    simp only []
    rw [saveRows_saveRows hid1 hdel1]
    rfl
  · intro u hu
    rw [h1] at hu
    have h4 := Except.ok.inj hu
    rw [← h4]
    rfl

theorem update_empty_idempotent_witness :
    (UpdateTodo dbW 1 1 emptyUpdate).2 = .ok { t0W with updatedAt := 1 }
    ∧ (UpdateTodo (UpdateTodo dbW 1 1 emptyUpdate).1 2 1 emptyUpdate).2
        = .ok { t0W with updatedAt := 2 }
    ∧ (UpdateTodo (UpdateTodo dbW 1 1 emptyUpdate).1 2 1 emptyUpdate).1
        = (UpdateTodo dbW 2 1 emptyUpdate).1
    ∧ (∀ u, (UpdateTodo dbW 1 1 emptyUpdate).2 = .ok u →
        u.priority = t0W.priority) :=
  update_empty_idempotent_up_to_timestamp dbW 1 2 1 t0W rfl

theorem update_empty_twice_counterexample :
    (UpdateTodo (UpdateTodo dbW 1 1 emptyUpdate).1 2 1 emptyUpdate).1
      ≠ (UpdateTodo dbW 1 1 emptyUpdate).1 := by
  decide

end TodoApp
